import Mathlib

/-!
Verification of the Radar-IP scan engine (Rust sources: scanner.rs,
ssh_client.rs, errors.rs) via a shallow embedding in Lean 4.

Strings are processed as lists of characters; machine integers (IPv4
addresses) are natural numbers below 2^32.  The external transport
(the actual SSH session) is abstracted as a function from a host address
to either a list of extracted MAC strings or an error message, exactly
the interface the scan coordinator consumes.  Completion-order
nondeterminism of the concurrently running probe bodies is made explicit
as a `schedule` parameter: the order in which probe bodies reach their
error-recording branch.
-/

namespace RadarIP

/-! ### Character classes

The extraction regex in ssh_client.rs is
`(?i)link/ether\s+([0-9a-f]{2}(?::[0-9a-f]{2}){5})`.
Character classes are modelled on ASCII code points: `isHexCI` is
`[0-9a-fA-F]` (the `(?i)` form of `[0-9a-f]`), `isLowerHex` is
`[0-9a-f]`, and `isWs` is the ASCII part of `\s`. -/

/-- Hexadecimal digit, case-insensitive: 0-9 (48-57), a-f (97-102), A-F (65-70). -/
def isHexCI (c : Char) : Bool :=
  (48 ≤ c.toNat && c.toNat ≤ 57) || (97 ≤ c.toNat && c.toNat ≤ 102) ||
  (65 ≤ c.toNat && c.toNat ≤ 70)

/-- Lowercase hexadecimal digit: 0-9 or a-f. -/
def isLowerHex (c : Char) : Bool :=
  (48 ≤ c.toNat && c.toNat ≤ 57) || (97 ≤ c.toNat && c.toNat ≤ 102)

/-- Whitespace as matched by the regex class backslash-s (ASCII part):
tab, newline, vertical tab, form feed, carriage return, space. -/
def isWs (c : Char) : Bool :=
  c.toNat = 9 || c.toNat = 10 || c.toNat = 11 || c.toNat = 12 ||
  c.toNat = 13 || c.toNat = 32

/-- Lowercasing of one character; ASCII fragment of Rust's
char to_lowercase, which is all the sources apply it to. -/
def lowerChar (c : Char) : Char :=
  if 65 ≤ c.toNat && c.toNat ≤ 90 then Char.ofNat (c.toNat + 32) else c

/-- Lowercasing of a string, modelling Rust's str::to_lowercase on
the ASCII inputs handled here. -/
def lowerStr (s : String) : String :=
  String.mk (s.data.map lowerChar)

/-! ### MAC extraction (ssh_client.rs, fetch_macs step 5)

The regex is decomposed into explicit matchers.  Each matcher consumes
a prefix of the character list and returns the remainder (and, for the
capture group, the consumed characters). -/

/-- Case-insensitive literal matcher: the first argument is the literal
in lowercase form; on success returns the input minus the literal. -/
def matchLitCI : List Char → List Char → Option (List Char)
  | [], cs => some cs
  | _ :: _, [] => none
  | l :: ls, c :: cs => if lowerChar c = l then matchLitCI ls cs else none

/-- Characters of the literal part of the extraction regex. -/
def linkEtherChars : List Char := "link/ether".data

/-- Matcher for the regex piece backslash-s-plus: at least one whitespace
character, consuming the maximal whitespace run (the following hex class
is disjoint from whitespace, so this is the unique viable parse). -/
def matchWs1 : List Char → Option (List Char)
  | [] => none
  | c :: cs => if isWs c then some (cs.dropWhile isWs) else none

/-- Matcher for `[0-9a-f]{2}` under `(?i)`: two hex characters; returns
them together with the remainder. -/
def matchHex2 : List Char → Option (List Char × List Char)
  | a :: b :: cs => if isHexCI a && isHexCI b then some ([a, b], cs) else none
  | _ => none

/-- Matcher for `(?::[0-9a-f]{2})`: a colon followed by two hex characters. -/
def matchColonHex2 : List Char → Option (List Char × List Char)
  | c :: rest =>
    if c = ':' then
      match matchHex2 rest with
      | some (h, r) => some (':' :: h, r)
      | none => none
    else none
  | [] => none

/-- Matcher for the capture group `[0-9a-f]{2}(?::[0-9a-f]{2}){5}`:
six colon-separated pairs of hex characters; returns the captured
characters and the remainder. -/
def matchMac (cs : List Char) : Option (List Char × List Char) := do
  let (g0, r0) ← matchHex2 cs
  let (g1, r1) ← matchColonHex2 r0
  let (g2, r2) ← matchColonHex2 r1
  let (g3, r3) ← matchColonHex2 r2
  let (g4, r4) ← matchColonHex2 r3
  let (g5, r5) ← matchColonHex2 r4
  some (g0 ++ g1 ++ g2 ++ g3 ++ g4 ++ g5, r5)

/-- Attempt to match the whole extraction regex at the head of the input:
the literal, one-or-more whitespace, then the MAC capture group.  On
success returns the captured characters and the input after the match. -/
def tryMatchAt (cs : List Char) : Option (List Char × List Char) := do
  let r0 ← matchLitCI linkEtherChars cs
  let r1 ← matchWs1 r0
  matchMac r1

/-- Leftmost, non-overlapping scan of the text for regex matches, as
the regex engine's captures_iter performs: try a match at every
position, and on success resume after the matched text.  Each step
consumes at least one character, so fuel equal to the input length is
never exhausted. -/
def extractLoopFuel : Nat → List Char → List String
  | 0, _ => []
  | _ + 1, [] => []
  | n + 1, c :: cs =>
    match tryMatchAt (c :: cs) with
    | some (mac, rest) => String.mk (mac.map lowerChar) :: extractLoopFuel n rest
    | none => extractLoopFuel n cs

/-- Parsing half of SshConfig::fetch_macs (ssh_client.rs step 5): all
non-overlapping matches of the extraction regex in the raw command
output, each capture normalized to lowercase.  The transport half is
external; this function is what the code applies to the raw text blob. -/
def fetchMacsParse (s : String) : List String :=
  extractLoopFuel s.data.length s.data

/-- Decision procedure for the canonical lowercase MAC shape: the
argument counts the remaining colon-separated groups after the first. -/
def canonAux : Nat → List Char → Bool
  | 0, [a, b] => isLowerHex a && isLowerHex b
  | n + 1, a :: b :: ':' :: rest => isLowerHex a && isLowerHex b && canonAux n rest
  | _, _ => false

/-- Canonical lowercase colon-separated six-group MAC form
(xx:xx:xx:xx:xx:xx with lowercase hex digits). -/
def isCanonicalLowerMac (s : String) : Bool :=
  canonAux 5 s.data

/-- Whether the text contains the literal link/ether (case-insensitive)
at some position. -/
def hasLinkEtherCI : List Char → Bool
  | [] => false
  | c :: cs => (matchLitCI linkEtherChars (c :: cs)).isSome || hasLinkEtherCI cs

/-- Whether the text contains, at some position, a substring matching
the bare canonical six-group colon-hex pattern (no literal required). -/
def hasMacSub : List Char → Bool
  | [] => false
  | c :: cs => (matchMac (c :: cs)).isSome || hasMacSub cs

/-! ### Private-key normalization (ssh_client.rs, PrivateKeyMemory arm) -/

/-- One left-to-right pass replacing each non-overlapping CRLF with LF,
modelling Rust's key_data.replace of "\r\n" by "\n". -/
def replaceCRLF : List Char → List Char
  | '\r' :: '\n' :: rest => '\n' :: replaceCRLF rest
  | c :: rest => c :: replaceCRLF rest
  | [] => []

/-- Whether the character list ends with a newline, modelling Rust's
clean_key.ends_with of the newline character. -/
def endsWithNL (cs : List Char) : Bool :=
  match cs.getLast? with
  | some '\n' => true
  | _ => false

/-- Key normalization on character lists: CRLF replacement, then a
newline is appended when the result does not already end with one. -/
def normalizeKeyChars (cs : List Char) : List Char :=
  let t := replaceCRLF cs
  if endsWithNL t then t else t ++ ['\n']

/-- Key normalization as performed on the in-memory key material before
it is staged to a temporary file (ssh_client.rs, PrivateKeyMemory arm). -/
def normalizeKey (s : String) : String :=
  String.mk (normalizeKeyChars s.data)

/-- Number of trailing newline characters of the text. -/
def trailingNLs (cs : List Char) : Nat :=
  (cs.reverse.takeWhile (fun c => c = '\n')).length

/-! ### Errors (errors.rs)

Only the two variants that can escape Scanner::scan are needed; the
per-host transport errors (connection, authentication, command
execution) are swallowed inside the probe bodies and reach the
coordinator only as display strings, so the abstract probe interface
below carries them as strings. -/

/-- Domain errors escaping the scan coordinator (errors.rs). -/
inductive RadarError where
  | invalidIpRange : String → RadarError
  | macNotFound : String → RadarError
deriving DecidableEq, Repr

/-! ### Range Expander

Modelled from the spec: CIDR parsing and usable-host enumeration are
performed by the external ipnet crate (Ipv4Net's from_str and hosts),
whose source is not part of this repository.  Section 4.1 of the design:
a CIDR-notation string a.b.c.d/p parses when the address is dotted
decimal and the mask length is at most 32; on success the expander
yields the ordered sequence of usable host addresses, network and
broadcast excluded, possibly empty for degenerate masks such as /31
and /32.  Addresses are Nat values below 2^32. -/

/-- Splitting of a character list at every occurrence of a separator,
the single-character case of str::split. -/
def splitOnChar (sep : Char) : List Char → List (List Char)
  | [] => [[]]
  | c :: cs =>
    if c = sep then [] :: splitOnChar sep cs
    else
      match splitOnChar sep cs with
      | [] => [[c]]
      | g :: gs => (c :: g) :: gs

/-- Modelled from the spec: one dotted-decimal octet, a nonempty string
of at most three digits with value at most 255 (missing source: ipnet /
Ipv4Addr string parsing). -/
def parseOctet (cs : List Char) : Option Nat :=
  if cs ≠ [] && cs.length ≤ 3 && cs.all Char.isDigit then
    let n := cs.foldl (fun acc c => acc * 10 + (c.toNat - 48)) 0
    if n ≤ 255 then some n else none
  else none

/-- Modelled from the spec: a dotted-decimal IPv4 address a.b.c.d,
returned as its 32-bit value (missing source: Ipv4Addr string parsing). -/
def parseIpv4 (cs : List Char) : Option Nat :=
  match splitOnChar '.' cs with
  | [a, b, c, d] => do
    let x ← parseOctet a
    let y ← parseOctet b
    let z ← parseOctet c
    let w ← parseOctet d
    some (((x * 256 + y) * 256 + z) * 256 + w)
  | _ => none

/-- Modelled from the spec: the mask length after the slash, a nonempty
digit string with value at most 32 (missing source: Ipv4Net string
parsing). -/
def parseMaskLen (cs : List Char) : Option Nat :=
  if cs ≠ [] && cs.length ≤ 2 && cs.all Char.isDigit then
    let n := cs.foldl (fun acc c => acc * 10 + (c.toNat - 48)) 0
    if n ≤ 32 then some n else none
  else none

/-- Modelled from the spec: CIDR parsing, address slash mask length
(missing source: Ipv4Net's from_str in the ipnet crate). -/
def parseCidr (s : String) : Option (Nat × Nat) :=
  match splitOnChar '/' s.data with
  | [a, p] => do
    let addr ← parseIpv4 a
    let plen ← parseMaskLen p
    some (addr, plen)
  | _ => none

/-- Network address of the block: the address with its host bits cleared. -/
def networkOf (addr plen : Nat) : Nat :=
  addr / 2 ^ (32 - plen) * 2 ^ (32 - plen)

/-- Broadcast address of the block: the address with its host bits set. -/
def broadcastOf (addr plen : Nat) : Nat :=
  networkOf addr plen + 2 ^ (32 - plen) - 1

/-- Modelled from the spec: the ordered sequence of usable host
addresses, network plus one up to broadcast minus one, hence empty for
mask lengths 31 and 32 (missing source: Ipv4Net's hosts in the ipnet
crate). -/
def hostsOf (addr plen : Nat) : List Nat :=
  (List.range (broadcastOf addr plen - networkOf addr plen - 1)).map
    (fun i => networkOf addr plen + 1 + i)

/-- Dotted-decimal rendering of a 32-bit address, as ip.to_string
produces for the probe bodies. -/
def ipToString (n : Nat) : String :=
  toString (n / 16777216 % 256) ++ "." ++ toString (n / 65536 % 256) ++ "." ++
  toString (n / 256 % 256) ++ "." ++ toString (n % 256)

/-- Host list of the block in the string form the scan loop consumes. -/
def hostStrs (addr plen : Nat) : List String :=
  (hostsOf addr plen).map ipToString

/-! ### Scan Coordinator (scanner.rs, Scanner::scan)

The transport collaborator is abstracted as
probe : String → Except String (List String): for each host address,
either the MAC list of the resulting DeviceIdentity or the display
string of the transport error, exactly what the probe body consumes.
A schedule — the order in which failing probe bodies reach their
error-recording branch — captures the completion-order nondeterminism
of the concurrently running blocking tasks; the coordinator itself
awaits the join handles in launch order. -/

/-- Body of one probe task (scanner.rs, the spawn_blocking closure):
on a successful fetch, some of the host address when the lowercased
target is in the MAC list; on failure, none. -/
def probeResult (probe : String → Except String (List String))
    (target : String) (ip : String) : Option String :=
  match probe ip with
  | .ok macs => if macs.contains target then some ip else none
  | .error _ => none

/-- Whether the probe of this host reports a match for the target. -/
def matchesHost (probe : String → Except String (List String))
    (target : String) (ip : String) : Bool :=
  (probeResult probe target ip).isSome

/-- Message a failing probe stores in the first-error slot:
the host address, a colon and a space, then the error display string
(scanner.rs, the Err arm of the spawn_blocking closure). -/
def failMsg (probe : String → Except String (List String))
    (ip : String) : Option String :=
  match probe ip with
  | .ok _ => none
  | .error e => some (ip ++ ": " ++ e)

/-- First value carried by a some in the list, in list order: the
result of consuming the join handles in launch order, or the final
content of a set-only-if-empty slot written in the list's order. -/
def firstSome : List (Option String) → Option String
  | [] => none
  | some x :: _ => some x
  | none :: rest => firstSome rest

/-- Scan body after CIDR parsing (scanner.rs steps 2 and 3): lowercase
the target, launch one probe per host, await the handles in launch
order and return the first match; otherwise report MacNotFound,
carrying the first error recorded in schedule (completion) order when
one exists. -/
def scanNet (targetMac : String) (probe : String → Except String (List String))
    (schedule : List String) (addr plen : Nat) : Except RadarError String :=
  let hosts := hostStrs addr plen
  let target := lowerStr targetMac
  match firstSome (hosts.map (probeResult probe target)) with
  | some ip => .ok ip
  | none =>
    match firstSome (schedule.map (failMsg probe)) with
    | some msg => .error (.macNotFound (targetMac ++ "\n\nFirst error: " ++ msg))
    | none => .error (.macNotFound targetMac)

/-- Scanner::scan: parse the CIDR, failing fast with InvalidIpRange,
then run the concurrent sweep over the expanded host list. -/
def scan (targetMac : String) (probe : String → Except String (List String))
    (schedule : List String) (cidr : String) : Except RadarError String :=
  match parseCidr cidr with
  | none => .error (.invalidIpRange cidr)
  | some (addr, plen) => scanNet targetMac probe schedule addr plen

/-- Number of probe tasks the scan spawns: zero when the CIDR is
rejected (the parse error returns before the spawn loop), one per
expanded host otherwise. -/
def probesLaunched (cidr : String) : Nat :=
  match parseCidr cidr with
  | none => 0
  | some (addr, plen) => (hostsOf addr plen).length

/-- Payload of the MacNotFound outcome (scanner.rs, the two final
branches): the original-case target, extended with the recorded first
error when the slot is non-empty. -/
def notFoundMsg (targetMac : String)
    (probe : String → Except String (List String))
    (schedule : List String) : String :=
  match firstSome (schedule.map (failMsg probe)) with
  | some msg => targetMac ++ "\n\nFirst error: " ++ msg
  | none => targetMac

/-! ### Admission semaphore (scanner.rs, MAX_CONCURRENT)

An interleaving model of the permit discipline: each probe task is
waiting, running (holding one permit, its transport call in flight), or
done; the semaphore holds the free-permit count.  Acquiring requires a
free permit; finishing — on the success path and on the transport
failure path alike, since the permit guard is dropped on every exit —
returns the permit. -/

/-- Capacity of the admission semaphore (scanner.rs, MAX_CONCURRENT). -/
def MAX_CONCURRENT : Nat := 50

/-- Lifecycle state of one probe task. -/
inductive ProbeState where
  | waiting
  | running
  | doneOk
  | doneErr
deriving DecidableEq, Repr

/-- State of one sweep: free permits of the semaphore and the state of
every probe task, in launch order. -/
structure SweepState where
  avail : Nat
  tasks : List ProbeState
deriving DecidableEq, Repr

/-- Number of probes whose transport call is in flight. -/
def countRunning (ts : List ProbeState) : Nat :=
  ts.countP (fun t => t = ProbeState.running)

/-- Interleaving steps of the sweep: a waiting task acquires a permit
when one is free; a running task finishes, successfully or with a
transport failure, returning its permit in either case. -/
inductive SweepStep : SweepState → SweepState → Prop where
  | acquire (s : SweepState) (i : Nat)
      (h : s.tasks.get? i = some ProbeState.waiting) (ha : 0 < s.avail) :
      SweepStep s ⟨s.avail - 1, s.tasks.set i ProbeState.running⟩
  | finishOk (s : SweepState) (i : Nat)
      (h : s.tasks.get? i = some ProbeState.running) :
      SweepStep s ⟨s.avail + 1, s.tasks.set i ProbeState.doneOk⟩
  | finishErr (s : SweepState) (i : Nat)
      (h : s.tasks.get? i = some ProbeState.running) :
      SweepStep s ⟨s.avail + 1, s.tasks.set i ProbeState.doneErr⟩

/-- Initial sweep state: the semaphore full at the given capacity, all
probe tasks launched and waiting. -/
def initSweep (cap n : Nat) : SweepState :=
  ⟨cap, List.replicate n ProbeState.waiting⟩

/-- States reachable from the initial sweep state by any interleaving. -/
inductive SweepReach (cap n : Nat) : SweepState → Prop where
  | init : SweepReach cap n (initSweep cap n)
  | step {s s' : SweepState} : SweepReach cap n s → SweepStep s s' →
      SweepReach cap n s'

/-! ## Supporting lemmas -/

/-- Reading back a packed code point below the surrogate range. -/
theorem charOfNat_toNat (m : Nat) (h : m < 55296) : (Char.ofNat m).toNat = m := by
  simp [Char.ofNat, Char.ofNatAux, Char.toNat, Nat.isValidChar, h,
    UInt32.toNat, BitVec.toNat_ofNatLt]

/-- Lowercasing a case-insensitive hex digit yields a lowercase hex digit. -/
theorem isHexCI_lowerChar (c : Char) (h : isHexCI c = true) :
    isLowerHex (lowerChar c) = true := by
  simp only [isHexCI, Bool.or_eq_true, Bool.and_eq_true, decide_eq_true_eq] at h
  unfold lowerChar
  by_cases hc : (65 ≤ c.toNat && c.toNat ≤ 90) = true
  · rw [if_pos hc]
    simp only [Bool.and_eq_true, decide_eq_true_eq] at hc
    rw [isLowerHex]
    rw [charOfNat_toNat (c.toNat + 32) (by omega)]
    simp only [Bool.or_eq_true, Bool.and_eq_true, decide_eq_true_eq]
    omega
  · rw [if_neg hc]
    simp only [Bool.and_eq_true, decide_eq_true_eq, not_and_or, not_le] at hc
    rw [isLowerHex]
    simp only [Bool.or_eq_true, Bool.and_eq_true, decide_eq_true_eq]
    omega

/-- Shape of a successful two-hex-digit match. -/
theorem matchHex2_eq {cs g r} (h : matchHex2 cs = some (g, r)) :
    ∃ a b, g = [a, b] ∧ isHexCI a = true ∧ isHexCI b = true ∧ cs = a :: b :: r := by
  match cs with
  | [] => simp [matchHex2] at h
  | [a] => simp [matchHex2] at h
  | a :: b :: t =>
    rw [matchHex2] at h
    by_cases hab : (isHexCI a && isHexCI b) = true
    · rw [if_pos hab] at h
      injection h with h
      injection h with h1 h2
      simp only [Bool.and_eq_true] at hab
      exact ⟨a, b, h1.symm, hab.1, hab.2, by rw [h2]⟩
    · rw [if_neg hab] at h
      exact absurd h (by simp)

/-- Shape of a successful colon-plus-two-hex match. -/
theorem matchColonHex2_eq {cs g r} (h : matchColonHex2 cs = some (g, r)) :
    ∃ a b, g = [':', a, b] ∧ isHexCI a = true ∧ isHexCI b = true ∧
      cs = ':' :: a :: b :: r := by
  match cs with
  | [] => simp [matchColonHex2] at h
  | c :: t =>
    rw [matchColonHex2] at h
    by_cases hc : c = ':'
    · rw [if_pos hc] at h
      subst hc
      cases h2 : matchHex2 t with
      | none => rw [h2] at h; simp at h
      | some p =>
        obtain ⟨g', r'⟩ := p
        rw [h2] at h
        simp only [Option.some.injEq, Prod.mk.injEq] at h
        obtain ⟨hg, hr⟩ := h
        obtain ⟨a, b, hg', ha, hb, ht⟩ := matchHex2_eq h2
        exact ⟨a, b, by rw [← hg, hg'], ha, hb, by rw [ht, hr]⟩
    · rw [if_neg hc] at h
      exact absurd h (by simp)

/-- Lowercasing the capture of a successful MAC match yields the
canonical lowercase colon-separated six-group form. -/
theorem matchMac_canon {cs mac rest} (h : matchMac cs = some (mac, rest)) :
    canonAux 5 (mac.map lowerChar) = true := by
  rw [matchMac] at h
  cases h0 : matchHex2 cs with
  | none => rw [h0] at h; simp at h
  | some p0 =>
    obtain ⟨g0, r0⟩ := p0
    rw [h0] at h; simp only [Option.pure_def, Option.bind_eq_bind, Option.some_bind] at h
    cases h1 : matchColonHex2 r0 with
    | none => rw [h1] at h; simp at h
    | some p1 =>
      obtain ⟨g1, r1⟩ := p1
      rw [h1] at h; simp only [Option.pure_def, Option.bind_eq_bind, Option.some_bind] at h
      cases h2 : matchColonHex2 r1 with
      | none => rw [h2] at h; simp at h
      | some p2 =>
        obtain ⟨g2, r2⟩ := p2
        rw [h2] at h; simp only [Option.pure_def, Option.bind_eq_bind, Option.some_bind] at h
        cases h3 : matchColonHex2 r2 with
        | none => rw [h3] at h; simp at h
        | some p3 =>
          obtain ⟨g3, r3⟩ := p3
          rw [h3] at h; simp only [Option.pure_def, Option.bind_eq_bind, Option.some_bind] at h
          cases h4 : matchColonHex2 r3 with
          | none => rw [h4] at h; simp at h
          | some p4 =>
            obtain ⟨g4, r4⟩ := p4
            rw [h4] at h; simp only [Option.pure_def, Option.bind_eq_bind, Option.some_bind] at h
            cases h5 : matchColonHex2 r4 with
            | none => rw [h5] at h; simp at h
            | some p5 =>
              obtain ⟨g5, r5⟩ := p5
              rw [h5] at h; simp only [Option.pure_def, Option.bind_eq_bind, Option.some_bind] at h
              simp only [Option.some.injEq, Prod.mk.injEq] at h
              obtain ⟨hmac, _⟩ := h
              obtain ⟨a0, b0, hg0, ha0, hb0, _⟩ := matchHex2_eq h0
              obtain ⟨a1, b1, hg1, ha1, hb1, _⟩ := matchColonHex2_eq h1
              obtain ⟨a2, b2, hg2, ha2, hb2, _⟩ := matchColonHex2_eq h2
              obtain ⟨a3, b3, hg3, ha3, hb3, _⟩ := matchColonHex2_eq h3
              obtain ⟨a4, b4, hg4, ha4, hb4, _⟩ := matchColonHex2_eq h4
              obtain ⟨a5, b5, hg5, ha5, hb5, _⟩ := matchColonHex2_eq h5
              subst hg0 hg1 hg2 hg3 hg4 hg5
              rw [← hmac]
              simp only [List.map_append, List.map_cons, List.map_nil]
              have hcolon : lowerChar ':' = ':' := by decide
              simp only [hcolon, List.cons_append, List.nil_append]
              simp only [canonAux, Bool.and_eq_true]
              exact ⟨⟨isHexCI_lowerChar a0 ha0, isHexCI_lowerChar b0 hb0⟩,
                ⟨isHexCI_lowerChar a1 ha1, isHexCI_lowerChar b1 hb1⟩,
                ⟨isHexCI_lowerChar a2 ha2, isHexCI_lowerChar b2 hb2⟩,
                ⟨isHexCI_lowerChar a3 ha3, isHexCI_lowerChar b3 hb3⟩,
                ⟨isHexCI_lowerChar a4 ha4, isHexCI_lowerChar b4 hb4⟩,
                isHexCI_lowerChar a5 ha5, isHexCI_lowerChar b5 hb5⟩

/-- Every string produced by the extraction scan is a canonical
lowercase MAC. -/
theorem extractLoopFuel_canon (n : Nat) :
    ∀ cs, ∀ m ∈ extractLoopFuel n cs, isCanonicalLowerMac m = true := by
  induction n with
  | zero => intro cs m hm; simp [extractLoopFuel] at hm
  | succ k ih =>
    intro cs m hm
    match cs with
    | [] => simp [extractLoopFuel] at hm
    | c :: cs' =>
      rw [extractLoopFuel] at hm
      cases htry : tryMatchAt (c :: cs') with
      | none =>
        rw [htry] at hm
        exact ih cs' m hm
      | some p =>
        obtain ⟨mac, rest⟩ := p
        rw [htry] at hm
        cases hm with
        | head =>
          rw [tryMatchAt] at htry
          cases h0 : matchLitCI linkEtherChars (c :: cs') with
          | none => rw [h0] at htry; simp at htry
          | some r0 =>
            rw [h0] at htry
            simp only [Option.pure_def, Option.bind_eq_bind, Option.some_bind] at htry
            cases h1 : matchWs1 r0 with
            | none => rw [h1] at htry; simp at htry
            | some r1 =>
              rw [h1] at htry
              simp only [Option.pure_def, Option.bind_eq_bind, Option.some_bind] at htry
              rw [isCanonicalLowerMac]
              exact matchMac_canon htry
        | tail _ hm' => exact ih rest m hm'

/-- Text with no case-insensitive occurrence of the literal yields no
extraction matches. -/
theorem extractLoopFuel_no_lit (n : Nat) :
    ∀ cs, hasLinkEtherCI cs = false → extractLoopFuel n cs = [] := by
  induction n with
  | zero => intro cs _; rw [extractLoopFuel]
  | succ k ih =>
    intro cs hno
    match cs with
    | [] => rw [extractLoopFuel]
    | c :: cs' =>
      rw [hasLinkEtherCI, Bool.or_eq_false_iff] at hno
      obtain ⟨hlit, hrest⟩ := hno
      rw [extractLoopFuel]
      have hnone : matchLitCI linkEtherChars (c :: cs') = none := by
        cases hl : matchLitCI linkEtherChars (c :: cs') with
        | none => rfl
        | some r => rw [hl] at hlit; simp at hlit
      have htry : tryMatchAt (c :: cs') = none := by
        rw [tryMatchAt, hnone]
        rfl
      rw [htry]
      exact ih cs' hrest

/-- Membership in an extraction result implies the canonical form; the
string-level wrapper of the loop lemma. -/
theorem fetchMacsParse_canon (s : String) :
    ∀ m ∈ fetchMacsParse s, isCanonicalLowerMac m = true :=
  extractLoopFuel_canon s.data.length s.data

/-- First hit of the launch-order consumption loop: when position i is
the first index of the list whose image under f is a some, folding the
whole image list yields exactly that some. -/
theorem firstSome_map_first (f : String → Option String) :
    ∀ (l : List String) (i : Nat) (hi : i < l.length),
      (f (l.get ⟨i, hi⟩)).isSome = true →
      (∀ j (hj : j < i), f (l.get ⟨j, Nat.lt_trans hj hi⟩) = none) →
      firstSome (l.map f) = f (l.get ⟨i, hi⟩) := by
  intro l
  induction l with
  | nil => intro i hi; simp at hi
  | cons x xs ih =>
    intro i hi hsome hbefore
    cases i with
    | zero =>
      simp only [List.get] at hsome ⊢
      rw [List.map_cons]
      cases hx : f x with
      | none => rw [hx] at hsome; simp at hsome
      | some v => rfl
    | succ k =>
      have hx : f x = none := hbefore 0 (Nat.succ_pos k)
      rw [List.map_cons, hx]
      rw [firstSome]
      have hk : k < xs.length := Nat.lt_of_succ_lt_succ hi
      have := ih k hk hsome
        (fun j hj => hbefore (j + 1) (Nat.succ_lt_succ hj))
      exact this

/-- When f sends every element of the list to none, the fold yields none. -/
theorem firstSome_map_none (f : String → Option String) :
    ∀ (l : List String), (∀ x ∈ l, f x = none) → firstSome (l.map f) = none := by
  intro l
  induction l with
  | nil => intro _; rfl
  | cons x xs ih =>
    intro hall
    rw [List.map_cons, hall x (List.mem_cons_self x xs)]
    rw [firstSome]
    exact ih (fun y hy => hall y (List.mem_cons_of_mem x hy))

/-- Host addresses of a block are strictly increasing. -/
theorem hostsOf_pairwise (addr plen : Nat) :
    (hostsOf addr plen).Pairwise (· < ·) := by
  rw [hostsOf, List.pairwise_map]
  exact (List.pairwise_lt_range _).imp (fun h => by omega)

/-- The block's network address is not a usable host. -/
theorem networkOf_not_mem (addr plen : Nat) :
    networkOf addr plen ∉ hostsOf addr plen := by
  rw [hostsOf]
  intro hmem
  obtain ⟨i, _, heq⟩ := List.mem_map.mp hmem
  omega

/-- The block's broadcast address is not a usable host. -/
theorem broadcastOf_not_mem (addr plen : Nat) :
    broadcastOf addr plen ∉ hostsOf addr plen := by
  rw [hostsOf]
  intro hmem
  obtain ⟨i, hi, heq⟩ := List.mem_map.mp hmem
  rw [List.mem_range] at hi
  omega

/-- Degenerate masks of length 31 or 32 expand to no usable hosts. -/
theorem hostsOf_degenerate (addr plen : Nat) (h : 31 ≤ plen) :
    hostsOf addr plen = [] := by
  rw [hostsOf, broadcastOf]
  have hk : 2 ^ (32 - plen) ≤ 2 := by
    have h1 : 32 - plen ≤ 1 := by omega
    calc 2 ^ (32 - plen) ≤ 2 ^ 1 := Nat.pow_le_pow_right (by omega) h1
    _ = 2 := rfl
  have hk1 : 1 ≤ 2 ^ (32 - plen) := Nat.one_le_two_pow
  have : networkOf addr plen + 2 ^ (32 - plen) - 1 - networkOf addr plen - 1 = 0 := by
    omega
  rw [this]
  rfl

/-- Probes whose host reports a match produce their own address. -/
theorem probeResult_of_matches (probe : String → Except String (List String))
    (target ip : String) (h : matchesHost probe target ip = true) :
    probeResult probe target ip = some ip := by
  rw [matchesHost] at h
  rw [probeResult] at h ⊢
  cases hp : probe ip with
  | error e => rw [hp] at h; simp at h
  | ok macs =>
    rw [hp] at h
    simp at h
    simp [h]

/-- Probes whose host reports no match (or whose transport fails)
produce nothing. -/
theorem probeResult_of_no_match (probe : String → Except String (List String))
    (target ip : String) (h : matchesHost probe target ip = false) :
    probeResult probe target ip = none := by
  rw [matchesHost] at h
  rw [probeResult] at h ⊢
  cases hp : probe ip with
  | error e => simp
  | ok macs =>
    rw [hp] at h
    simp at h
    simp [h]

/-- Scan body outcome when position i holds the first matching host in
launch order: that host's address, whatever the schedule. -/
theorem scanNet_first_match (tgt : String)
    (probe : String → Except String (List String)) (sched : List String)
    (addr plen i : Nat) (hi : i < (hostStrs addr plen).length)
    (hm : matchesHost probe (lowerStr tgt) ((hostStrs addr plen).get ⟨i, hi⟩) = true)
    (hb : ∀ j (hj : j < i),
      matchesHost probe (lowerStr tgt) ((hostStrs addr plen).get ⟨j, Nat.lt_trans hj hi⟩) = false) :
    scanNet tgt probe sched addr plen = .ok ((hostStrs addr plen).get ⟨i, hi⟩) := by
  have hfold : firstSome ((hostStrs addr plen).map (probeResult probe (lowerStr tgt))) =
      probeResult probe (lowerStr tgt) ((hostStrs addr plen).get ⟨i, hi⟩) := by
    refine firstSome_map_first _ _ i hi ?_ ?_
    · rw [probeResult_of_matches probe _ _ hm]; rfl
    · intro j hj
      exact probeResult_of_no_match probe _ _ (hb j hj)
  rw [scanNet]
  rw [hfold, probeResult_of_matches probe _ _ hm]

/-- Scan body outcome when no host matches: the fold over the launch
order yields nothing, so the result is the not-found branch. -/
theorem scanNet_no_match (tgt : String)
    (probe : String → Except String (List String)) (sched : List String)
    (addr plen : Nat)
    (hall : ∀ ip ∈ hostStrs addr plen, matchesHost probe (lowerStr tgt) ip = false) :
    scanNet tgt probe sched addr plen =
      (match firstSome (sched.map (failMsg probe)) with
        | some msg => .error (.macNotFound (tgt ++ "\n\nFirst error: " ++ msg))
        | none => .error (.macNotFound tgt)) := by
  have hfold : firstSome ((hostStrs addr plen).map (probeResult probe (lowerStr tgt))) = none :=
    firstSome_map_none _ _ (fun ip hip => probeResult_of_no_match probe _ _ (hall ip hip))
  rw [scanNet, hfold]

/-- Count of in-flight probes in the all-waiting launch state. -/
theorem countRunning_replicate_waiting (n : Nat) :
    countRunning (List.replicate n ProbeState.waiting) = 0 := by
  simp [countRunning, List.countP_eq_zero, List.mem_replicate]

/-- Effect of updating one task's state on the in-flight count, in
subtraction-free form. -/
theorem countP_set_balance (l : List ProbeState) (i : Nat) (a b : ProbeState)
    (h : l.get? i = some a) (p : ProbeState → Bool) :
    (l.set i b).countP p + (if p a then 1 else 0) =
      l.countP p + (if p b then 1 else 0) := by
  induction l generalizing i with
  | nil => simp at h
  | cons c cs ih =>
    cases i with
    | zero =>
      simp only [List.get?] at h
      injection h with h; subst h
      simp [List.countP_cons]; omega
    | succ j =>
      simp only [List.get?] at h
      simp only [List.set, List.countP_cons]
      have := ih j h
      omega

/-- Permit conservation: in every reachable sweep state, free permits
plus in-flight probes equal the capacity. -/
theorem sweep_permit_balance (cap n : Nat) (s : SweepState)
    (h : SweepReach cap n s) : s.avail + countRunning s.tasks = cap := by
  induction h with
  | init => simp [initSweep, countRunning_replicate_waiting]
  | step _ hstep ih =>
    cases hstep with
    | acquire i hget ha =>
      have hbal := countP_set_balance _ i ProbeState.waiting ProbeState.running
        hget (fun t => t = ProbeState.running)
      simp only [countRunning] at ih ⊢
      simp at hbal
      omega
    | finishOk i hget =>
      have hbal := countP_set_balance _ i ProbeState.running ProbeState.doneOk
        hget (fun t => t = ProbeState.running)
      simp only [countRunning] at ih ⊢
      simp at hbal
      omega
    | finishErr i hget =>
      have hbal := countP_set_balance _ i ProbeState.running ProbeState.doneErr
        hget (fun t => t = ProbeState.running)
      simp only [countRunning] at ih ⊢
      simp at hbal
      omega

/-- Scan body outcome when no host matches, phrased with the
MacNotFound payload selector. -/
theorem scanNet_no_match_msg (tgt : String)
    (probe : String → Except String (List String)) (sched : List String)
    (addr plen : Nat)
    (hall : ∀ ip ∈ hostStrs addr plen, matchesHost probe (lowerStr tgt) ip = false) :
    scanNet tgt probe sched addr plen =
      .error (.macNotFound (notFoundMsg tgt probe sched)) := by
  rw [scanNet_no_match tgt probe sched addr plen hall, notFoundMsg]
  cases firstSome (sched.map (failMsg probe)) <;> rfl

/-- Probes that parse their MAC lists out of raw transport text never
match a target whose lowercased form is not a canonical lowercase MAC,
because every extracted entry is canonical. -/
theorem matchesHost_extraction_false (outputs : String → String)
    (tgt ip : String) (h : isCanonicalLowerMac (lowerStr tgt) = false) :
    matchesHost (fun a => .ok (fetchMacsParse (outputs a))) (lowerStr tgt) ip = false := by
  rw [matchesHost, probeResult]
  simp only
  by_cases hc : (fetchMacsParse (outputs ip)).contains (lowerStr tgt) = true
  · exfalso
    have hmem : lowerStr tgt ∈ fetchMacsParse (outputs ip) := by
      simpa using hc
    have := fetchMacsParse_canon (outputs ip) (lowerStr tgt) hmem
    rw [this] at h
    exact Bool.true_eq_false.mp h
  · rw [if_neg hc]
    rfl

/-! ## Claims -/

/-- C1: for every scan over a valid CIDR in which a probed host at
position i of the Range Expander's enumeration reports the target
hardware address and no earlier-enumerated host does, scan returns that
host's address — in particular when a later host also matches — and the
result does not depend on the completion schedule, which is universally
quantified and absent from the conclusion. -/
theorem scan_returns_first_enumerated_match (tgt : String)
    (probe : String → Except String (List String)) (sched : List String)
    (cidr : String) (addr plen i : Nat)
    (hparse : parseCidr cidr = some (addr, plen))
    (hi : i < (hostStrs addr plen).length)
    (hm : matchesHost probe (lowerStr tgt) ((hostStrs addr plen).get ⟨i, hi⟩) = true)
    (hb : ∀ j (hj : j < i),
      matchesHost probe (lowerStr tgt)
        ((hostStrs addr plen).get ⟨j, Nat.lt_trans hj hi⟩) = false) :
    scan tgt probe sched cidr = .ok ((hostStrs addr plen).get ⟨i, hi⟩) := by
  rw [scan, hparse]
  exact scanNet_first_match tgt probe sched addr plen i hi hm hb

/-- Witness for C1: a /30 network whose two usable hosts both report
the target address, with the completion schedule reversed relative to
launch order; the first-enumerated host is returned. -/
theorem scan_returns_first_enumerated_match_witness :
    scan "aa:bb:cc:dd:ee:ff" (fun _ => .ok ["aa:bb:cc:dd:ee:ff"])
      ["10.0.0.2", "10.0.0.1"] "10.0.0.0/30" = .ok "10.0.0.1" := by
  have h := scan_returns_first_enumerated_match "aa:bb:cc:dd:ee:ff"
    (fun _ => .ok ["aa:bb:cc:dd:ee:ff"]) ["10.0.0.2", "10.0.0.1"] "10.0.0.0/30"
    167772160 30 0 (by decide) (by decide) (by decide)
    (fun j hj => absurd hj (Nat.not_lt_zero j))
  exact h.trans (congrArg Except.ok (by decide))

/-- C2: for every scan over a valid CIDR in which exactly one probed
host among N reports the target hardware address — matching the
lowercased form of a possibly mixed-case target — scan returns Ok with
that host's address, whatever failures or non-matches the other probes
produce. -/
theorem scan_unique_match_returned (tgt : String)
    (probe : String → Except String (List String)) (sched : List String)
    (cidr : String) (addr plen i : Nat)
    (hparse : parseCidr cidr = some (addr, plen))
    (hi : i < (hostStrs addr plen).length)
    (hm : matchesHost probe (lowerStr tgt) ((hostStrs addr plen).get ⟨i, hi⟩) = true)
    (hothers : ∀ j (hj : j < (hostStrs addr plen).length), j ≠ i →
      matchesHost probe (lowerStr tgt) ((hostStrs addr plen).get ⟨j, hj⟩) = false) :
    scan tgt probe sched cidr = .ok ((hostStrs addr plen).get ⟨i, hi⟩) := by
  rw [scan, hparse]
  exact scanNet_first_match tgt probe sched addr plen i hi hm
    (fun j hj => hothers j (Nat.lt_trans hj hi) (by omega))

/-- Witness for C2: a mixed-case target, one matching host and one
host whose transport fails; the matching host's address is returned. -/
theorem scan_unique_match_returned_witness :
    scan "AA:BB:cc:dd:ee:FF"
      (fun ip => if ip = "10.0.0.2" then .ok ["aa:bb:cc:dd:ee:ff"]
        else .error "connection refused")
      [] "10.0.0.0/30" = .ok "10.0.0.2" := by
  have h := scan_unique_match_returned "AA:BB:cc:dd:ee:FF"
    (fun ip => if ip = "10.0.0.2" then .ok ["aa:bb:cc:dd:ee:ff"]
      else .error "connection refused")
    [] "10.0.0.0/30" 167772160 30 1 (by decide) (by decide) (by decide) (by decide)
  exact h.trans (congrArg Except.ok (by decide))

/-- C3: for every input string the CIDR parser rejects, scan fails
with InvalidIpRange carrying the offending string, and no probe is
launched. -/
theorem scan_invalid_cidr_no_probes (tgt : String)
    (probe : String → Except String (List String)) (sched : List String)
    (cidr : String) (hbad : parseCidr cidr = none) :
    scan tgt probe sched cidr = .error (.invalidIpRange cidr) ∧
      probesLaunched cidr = 0 := by
  constructor
  · rw [scan, hbad]
  · rw [probesLaunched, hbad]

/-- Witness for C3 at an out-of-range first octet. -/
theorem scan_invalid_cidr_no_probes_witness :
    scan "t" (fun _ => .ok []) [] "999.0.0.1/24" =
      .error (.invalidIpRange "999.0.0.1/24") ∧
      probesLaunched "999.0.0.1/24" = 0 :=
  scan_invalid_cidr_no_probes "t" (fun _ => .ok []) [] "999.0.0.1/24" (by decide)

/-- C4: per-host transport failures never abort the scan: when every
host reports no match or fails, the outcome is MacNotFound — a normal
terminal result, never a propagated transport error — and one probe per
expanded host was still launched. -/
theorem scan_transport_failures_nonfatal (tgt : String)
    (probe : String → Except String (List String)) (sched : List String)
    (cidr : String) (addr plen : Nat)
    (hparse : parseCidr cidr = some (addr, plen))
    (hall : ∀ ip ∈ hostStrs addr plen, matchesHost probe (lowerStr tgt) ip = false) :
    scan tgt probe sched cidr = .error (.macNotFound (notFoundMsg tgt probe sched)) ∧
      probesLaunched cidr = (hostsOf addr plen).length := by
  constructor
  · rw [scan, hparse]
    exact scanNet_no_match_msg tgt probe sched addr plen hall
  · rw [probesLaunched, hparse]

/-- Witness for C4: one host times out and the other reports no match;
the scan still completes with a MacNotFound carrying the recorded
failure, after launching both probes. -/
theorem scan_transport_failures_nonfatal_witness :
    scan "aa:bb:cc:dd:ee:ff"
      (fun ip => if ip = "10.0.0.1" then .error "connection timed out" else .ok [])
      ["10.0.0.1", "10.0.0.2"] "10.0.0.0/30"
      = .error (.macNotFound
          "aa:bb:cc:dd:ee:ff\n\nFirst error: 10.0.0.1: connection timed out") ∧
      probesLaunched "10.0.0.0/30" = 2 := by
  have h := scan_transport_failures_nonfatal "aa:bb:cc:dd:ee:ff"
    (fun ip => if ip = "10.0.0.1" then .error "connection timed out" else .ok [])
    ["10.0.0.1", "10.0.0.2"] "10.0.0.0/30" 167772160 30 (by decide) (by decide)
  refine ⟨h.1.trans ?_, h.2.trans (by decide)⟩
  exact congrArg (fun m => Except.error (RadarError.macNotFound m)) (by decide)

/-- Counterexample to C5: a two-host network in which both probes fail;
with the completion schedule reversed relative to launch order, the
diagnostic attached to MacNotFound is the second-launched host's
failure text, and the two schedules give different outcomes — so the
attached diagnostic is neither the first failure in launch order nor
deterministic across interleavings, as the first-error slot is written
in completion order. -/
theorem scan_diag_launch_order_cex :
    hostStrs 167772160 30 = ["10.0.0.1", "10.0.0.2"] ∧
    failMsg (fun ip => if ip = "10.0.0.1" then .error "boom1" else .error "boom2")
      "10.0.0.1" = some "10.0.0.1: boom1" ∧
    scan "t" (fun ip => if ip = "10.0.0.1" then .error "boom1" else .error "boom2")
      ["10.0.0.2", "10.0.0.1"] "10.0.0.0/30"
      = .error (.macNotFound "t\n\nFirst error: 10.0.0.2: boom2") ∧
    scan "t" (fun ip => if ip = "10.0.0.1" then .error "boom1" else .error "boom2")
      ["10.0.0.1", "10.0.0.2"] "10.0.0.0/30"
      = .error (.macNotFound "t\n\nFirst error: 10.0.0.1: boom1") :=
  ⟨rfl, rfl, rfl, rfl⟩

/-- C5 amended: when no host matches and the schedule position k holds
the first probe, in completion (error-recording) order, whose transport
failed, the MacNotFound diagnostic is that probe's failure message —
first-in-completion-order, not first-in-launch-order, and hence
dependent on the interleaving. -/
theorem scan_diag_first_in_completion_order (tgt : String)
    (probe : String → Except String (List String)) (sched : List String)
    (cidr : String) (addr plen k : Nat) (msg : String)
    (hparse : parseCidr cidr = some (addr, plen))
    (hall : ∀ ip ∈ hostStrs addr plen, matchesHost probe (lowerStr tgt) ip = false)
    (hk : k < sched.length)
    (hfail : failMsg probe (sched.get ⟨k, hk⟩) = some msg)
    (hbefore : ∀ j (hj : j < k),
      failMsg probe (sched.get ⟨j, Nat.lt_trans hj hk⟩) = none) :
    scan tgt probe sched cidr
      = .error (.macNotFound (tgt ++ "\n\nFirst error: " ++ msg)) := by
  rw [scan, hparse]
  show scanNet tgt probe sched addr plen
    = .error (.macNotFound (tgt ++ "\n\nFirst error: " ++ msg))
  rw [scanNet_no_match tgt probe sched addr plen hall]
  have hslot : firstSome (sched.map (failMsg probe)) = some msg := by
    have hfold := firstSome_map_first (failMsg probe) sched k hk
      (by rw [hfail]; rfl) hbefore
    rw [hfold, hfail]
  rw [hslot]

/-- Witness for the amended C5: the reversed schedule puts the
second-launched host's failure first in completion order, and exactly
that message is attached. -/
theorem scan_diag_first_in_completion_order_witness :
    scan "t" (fun ip => if ip = "10.0.0.2" then .error "late" else .error "early")
      ["10.0.0.2", "10.0.0.1"] "10.0.0.0/30"
      = .error (.macNotFound "t\n\nFirst error: 10.0.0.2: late") :=
  scan_diag_first_in_completion_order "t"
    (fun ip => if ip = "10.0.0.2" then .error "late" else .error "early")
    ["10.0.0.2", "10.0.0.1"] "10.0.0.0/30" 167772160 30 0 "10.0.0.2: late"
    (by decide) (by decide) (by decide) (by decide)
    (fun j hj => absurd hj (Nat.not_lt_zero j))

/-- C6: for every block, the spec-modelled Range Expander output is
strictly increasing (hence duplicate-free), excludes the network and
broadcast addresses, and for degenerate masks of length 31 and 32 is
empty — which downstream yields a MacNotFound outcome from the scan
body, never an InvalidRange error. -/
theorem range_expander_props (addr plen : Nat) (tgt : String)
    (probe : String → Except String (List String)) (sched : List String) :
    (hostsOf addr plen).Pairwise (· < ·) ∧
    (hostsOf addr plen).Nodup ∧
    networkOf addr plen ∉ hostsOf addr plen ∧
    broadcastOf addr plen ∉ hostsOf addr plen ∧
    (31 ≤ plen → hostsOf addr plen = [] ∧
      scanNet tgt probe sched addr plen
        = .error (.macNotFound (notFoundMsg tgt probe sched))) := by
  refine ⟨hostsOf_pairwise addr plen,
    (hostsOf_pairwise addr plen).imp (fun h => Nat.ne_of_lt h),
    networkOf_not_mem addr plen, broadcastOf_not_mem addr plen, ?_⟩
  intro h31
  have hempty := hostsOf_degenerate addr plen h31
  refine ⟨hempty, ?_⟩
  apply scanNet_no_match_msg
  intro ip hip
  rw [hostStrs, hempty] at hip
  simp at hip

/-- Witness for C6 at a /32 block: no usable hosts, and the scan body
terminates with MacNotFound rather than any range error. -/
theorem range_expander_props_witness :
    hostsOf 3232235776 32 = [] ∧
    scanNet "t" (fun _ => .ok []) [] 3232235776 32 = .error (.macNotFound "t") := by
  have h := (range_expander_props 3232235776 32 "t" (fun _ => .ok []) []).2.2.2.2
    (by omega)
  exact ⟨h.1, h.2.trans rfl⟩

/-- Counterexample to C7: text consisting of a bare canonical
six-group colon-hex substring with no link/ether anchor; extraction
returns the empty list, not that substring, so extraction does not
return every substring matching the bare canonical pattern. -/
theorem extract_bare_pattern_cex :
    hasMacSub ("aa:bb:cc:dd:ee:ff").data = true ∧
    fetchMacsParse "aa:bb:cc:dd:ee:ff" = [] :=
  ⟨rfl, rfl⟩

/-- C7 amended: extraction is total and returns only canonical
lowercase six-group colon-hex strings — the captures of the anchored
pattern link/ether-whitespace-MAC, matched case-insensitively and
normalized to lowercase — and text with no case-insensitive
occurrence of the link/ether anchor yields the empty list. -/
theorem extract_anchored_and_lowercased (s : String) :
    (∀ m ∈ fetchMacsParse s, isCanonicalLowerMac m = true) ∧
    (hasLinkEtherCI s.data = false → fetchMacsParse s = []) :=
  ⟨fetchMacsParse_canon s, fun h => extractLoopFuel_no_lit s.data.length s.data h⟩

/-- Witness for the amended C7: an interface listing line yields
exactly its lowercased MAC, and anchor-free text yields nothing. -/
theorem extract_anchored_and_lowercased_witness :
    isCanonicalLowerMac "aa:bb:cc:dd:ee:ff" = true ∧
    fetchMacsParse "eth0: mtu 1500 qdisc noqueue" = [] := by
  constructor
  · exact (extract_anchored_and_lowercased
      "2: eth0:\n    link/ether AA:BB:CC:DD:EE:FF brd ff:ff:ff:ff:ff:ff").1
      "aa:bb:cc:dd:ee:ff" (by decide)
  · exact (extract_anchored_and_lowercased "eth0: mtu 1500 qdisc noqueue").2
      (by decide)

/-- Counterexample to C8: key material already ending in two newlines
is passed through unchanged, so the normalized form ends with two
trailing line terminators, not exactly one. -/
theorem normalize_key_multiple_trailing_cex :
    normalizeKey "x\n\n" = "x\n\n" ∧
    trailingNLs (normalizeKey "x\n\n").data = 2 ∧
    trailingNLs (normalizeKey "x\n\n").data ≠ 1 :=
  ⟨rfl, rfl, by decide⟩

/-- C8 amended: normalization replaces CRLF pairs in one left-to-right
pass and guarantees at least one trailing newline: a key whose
converted form lacks a trailing newline gets exactly one appended,
while a key already ending in a newline is passed through unchanged
(so pre-existing extra trailing newlines survive). -/
theorem normalize_key_trailing_newline (s : String) :
    endsWithNL (normalizeKey s).data = true ∧
    (endsWithNL (replaceCRLF s.data) = false →
      normalizeKey s = String.mk (replaceCRLF s.data ++ ['\n'])) ∧
    (endsWithNL (replaceCRLF s.data) = true →
      normalizeKey s = String.mk (replaceCRLF s.data)) := by
  refine ⟨?_, ?_, ?_⟩
  · show endsWithNL (normalizeKeyChars s.data) = true
    unfold normalizeKeyChars
    by_cases hx : endsWithNL (replaceCRLF s.data) = true
    · simp [hx]
    · simp only [Bool.not_eq_true] at hx
      simp only [hx, Bool.false_eq_true, if_false]
      simp [endsWithNL, List.getLast?_concat]
  · intro hx
    rw [normalizeKey, normalizeKeyChars]
    simp [hx]
  · intro hx
    rw [normalizeKey, normalizeKeyChars]
    simp [hx]

/-- Witness for the amended C8: a CRLF-separated key without trailing
newline normalizes to LF endings plus exactly one appended newline. -/
theorem normalize_key_trailing_newline_witness :
    endsWithNL (normalizeKey "a\r\nb").data = true ∧
    normalizeKey "a\r\nb" = "a\nb\n" := by
  have h := normalize_key_trailing_newline "a\r\nb"
  exact ⟨h.1, (h.2.1 (by decide)).trans rfl⟩

/-- C9: in every sweep state reachable under any interleaving of
acquire and finish steps, the number of probes whose transport call is
in flight never exceeds the admission capacity MAX_CONCURRENT, and
permits are conserved — free permits plus in-flight probes always equal
the capacity, since both finish steps (success and transport failure)
return the permit. -/
theorem admission_cap_respected (n : Nat) (s : SweepState)
    (h : SweepReach MAX_CONCURRENT n s) :
    countRunning s.tasks ≤ MAX_CONCURRENT ∧
      s.avail + countRunning s.tasks = MAX_CONCURRENT := by
  have hbal := sweep_permit_balance MAX_CONCURRENT n s h
  exact ⟨by omega, hbal⟩

/-- Witness for C9: the state reached after the first probe of a
three-host sweep acquires its permit. -/
theorem admission_cap_respected_witness :
    countRunning ((initSweep MAX_CONCURRENT 3).tasks.set 0 ProbeState.running)
      ≤ MAX_CONCURRENT ∧
    MAX_CONCURRENT - 1 +
      countRunning ((initSweep MAX_CONCURRENT 3).tasks.set 0 ProbeState.running)
      = MAX_CONCURRENT := by
  have h := admission_cap_respected 3
    ⟨MAX_CONCURRENT - 1, (initSweep MAX_CONCURRENT 3).tasks.set 0 ProbeState.running⟩
    (SweepReach.step SweepReach.init
      (SweepStep.acquire (initSweep MAX_CONCURRENT 3) 0 (by decide) (by decide)))
  exact h

/-- C10: the match test is equality against extracted entries, and
every extracted entry is canonical lowercase colon-separated form; a
target whose lowercased text is not in that form — hyphenated, dotted,
separator-free, or otherwise — therefore never matches any host, even
one whose interface carries the same hardware address, and the scan
never succeeds. -/
theorem noncanonical_target_never_matches (tgt : String)
    (outputs : String → String) (sched : List String) (cidr : String)
    (h : isCanonicalLowerMac (lowerStr tgt) = false) (ip : String) :
    scan tgt (fun a => .ok (fetchMacsParse (outputs a))) sched cidr ≠ .ok ip := by
  cases hp : parseCidr cidr with
  | none =>
    rw [scan, hp]
    simp
  | some p =>
    obtain ⟨addr, plen⟩ := p
    rw [scan, hp]
    show scanNet tgt (fun a => .ok (fetchMacsParse (outputs a))) sched addr plen ≠ .ok ip
    rw [scanNet_no_match_msg tgt (fun a => .ok (fetchMacsParse (outputs a))) sched
      addr plen (fun ip' _ => matchesHost_extraction_false outputs tgt ip' h)]
    simp

/-- Witness for C10: a hyphen-separated target never matches a host
whose interface listing carries the same hardware address in canonical
form. -/
theorem noncanonical_target_never_matches_witness :
    isCanonicalLowerMac (lowerStr "AA-BB-CC-DD-EE-FF") = false ∧
    scan "AA-BB-CC-DD-EE-FF"
      (fun _ => .ok (fetchMacsParse "link/ether aa:bb:cc:dd:ee:ff"))
      [] "10.0.0.0/30" ≠ .ok "10.0.0.1" :=
  ⟨by decide, noncanonical_target_never_matches "AA-BB-CC-DD-EE-FF"
    (fun _ => "link/ether aa:bb:cc:dd:ee:ff") [] "10.0.0.0/30" (by decide) "10.0.0.1"⟩

end RadarIP
